import Mathlib

/-!
Verification of the FASTA-renaming application (src/app.py and the
standalone template src/template_rename.py).

Strings of the Python program are modelled as `List Char`.  Pure helper
functions of the program (`normalize_code_indentation`, the preview loop of
`test_logic_safely`, the batch-apply loop of `main`, the CSV lookup loading)
are translated directly from the source.  The Python interpreter itself
(`exec` of the generated wrapper) cannot be embedded; it is modelled as an
abstract build step `pyExec : List Char → Except PyStr FragmentSem` whose
successful result is the semantics of the generated fragment: a function
from the two original header fields and the lookup table to either a raised
exception message or the final set of local variables the fragment assigned.
-/

/-- Abbreviation: a Python string, modelled as its list of characters. -/
abbrev PyStr := List Char

/-- Python whitespace test for the ASCII range, as used by str.strip,
str.lstrip and str.split with no argument. -/
def pyIsSpace (c : Char) : Bool :=
  c == ' ' || c == '\t' || c == '\n' || c == '\r' || c == '\x0B' || c == '\x0C'

/-- Python str.lstrip() with no argument: drop leading whitespace. -/
def pyLstrip (s : PyStr) : PyStr := s.dropWhile pyIsSpace

/-- Python str.rstrip() with no argument: drop trailing whitespace. -/
def pyRstrip (s : PyStr) : PyStr := (s.reverse.dropWhile pyIsSpace).reverse

/-- Python str.strip() with no argument. -/
def pyStrip (s : PyStr) : PyStr := pyRstrip (pyLstrip s)

/-- Python str.upper() restricted to ASCII letters (Char.toUpper agrees with
Python's upper on ASCII input). -/
def pyUpper (s : PyStr) : PyStr := s.map Char.toUpper

/-- First whitespace-separated word of a string, the empty string if there is
none: Python title.split(None, 1)[0] guarded by the empty case. -/
def firstWord (s : PyStr) : PyStr :=
  (s.dropWhile pyIsSpace).takeWhile (fun c => !pyIsSpace c)

/-- Python s.split(chr(10)): split on every newline character, keeping empty
segments, so the result is always nonempty. -/
def splitLines : PyStr → List PyStr
  | [] => [[]]
  | c :: cs =>
    if c = '\n' then [] :: splitLines cs
    else
      match splitLines cs with
      | [] => [[c]]
      | l :: ls => (c :: l) :: ls

/-- Python (chr(10)).join(lines): interleave a newline between segments. -/
def joinLines : List PyStr → PyStr
  | [] => []
  | [l] => l
  | l :: ls => l ++ '\n' :: joinLines ls

/-- The literal "global " tested by normalize_code_indentation. -/
def globalKw : PyStr := "global ".toList

/-- Line filter of normalize_code_indentation (src/app.py lines 124-129):
keep a line unless its strip() is empty or its strip() starts with
"global ". -/
def isValidLine (line : PyStr) : Bool :=
  !(pyStrip line).isEmpty && !(globalKw.isPrefixOf (pyStrip line))

/-- Per-line re-indentation of normalize_code_indentation (src/app.py lines
139-143): slice off the baseline when the line is long enough, else fall
back to a full lstrip. -/
def stripBaseline (baseline_indent : Nat) (line : PyStr) : PyStr :=
  if baseline_indent ≤ line.length then line.drop baseline_indent
  else pyLstrip line

/-- Steps 2-3 of normalize_code_indentation on the already-filtered lines:
baseline from the first valid line, then rebuild (src/app.py lines 131-145). -/
def normalizeValid : List PyStr → PyStr
  | [] => []
  | first_line :: rest =>
    joinLines ((first_line :: rest).map
      (stripBaseline (first_line.length - (pyLstrip first_line).length)))

/-- normalize_code_indentation (src/app.py lines 114-145): split on
newlines, drop blank and "global " lines, then remove the baseline
indentation of the first remaining line from every remaining line. -/
def normalize_code_indentation (code_str : PyStr) : PyStr :=
  normalizeValid ((splitLines code_str).filter isValidLine)

/-- The normalizer as the specification words it (spec.md section 4.2):
(a) drop lines that are empty or whitespace-only, (b) drop lines whose
stripped text starts with a global declaration, (c) baseline = the
leading-whitespace count of the first remaining line, removed from every
remaining line, with a full left-strip for lines shorter than the baseline;
no remaining lines gives the empty string. -/
def normalizeSpec (code_str : PyStr) : PyStr :=
  match (splitLines code_str).filter
      (fun line => !(line.all pyIsSpace) && !(globalKw.isPrefixOf (pyStrip line))) with
  | [] => []
  | first :: rest =>
    joinLines ((first :: rest).map
      (fun line =>
        if line.length < (first.takeWhile pyIsSpace).length then line.dropWhile pyIsSpace
        else line.drop (first.takeWhile pyIsSpace).length))

/-- Uniform extra indentation: k extra leading space columns added to every
line of the fragment. -/
def addIndent (k : Nat) (code : PyStr) : PyStr :=
  joinLines ((splitLines code).map (fun line => List.replicate k ' ' ++ line))

/-- A fragment is baseline-aligned when its first remaining (valid) line has
no leading whitespace (vacuously true when no line remains). -/
def baselineAligned (code : PyStr) : Bool :=
  match (splitLines code).filter isValidLine with
  | [] => true
  | first :: _ => (first.takeWhile pyIsSpace).isEmpty

/-- The lookup table, Python dict modelled as an insertion-ordered list of
key-value pairs (a later pair overrides an earlier one with the same key,
as in dict construction). -/
abbrev LookupMap := List (PyStr × PyStr)

/-- Python dict lookup on an insertion-ordered pair list: the last binding
of a key wins, as when the dict is built by dict(zip(..)). -/
def pyDict (ps : LookupMap) (key : PyStr) : Option PyStr :=
  (ps.reverse.find? (fun p => p.1 == key)).map (fun p => p.2)

/-- Modelled from the spec: a sequence record of the external FASTA parsing
library (Bio.SeqIO), spec.md section 3: identifier, free-text description
(the full header line), and an opaque sequence payload; the name field is
the parser's copy of the identifier, cleared by the app before writing. -/
structure SeqRecord where
  id : PyStr
  name : PyStr
  description : PyStr
  seq : PyStr
deriving DecidableEq

/-- A line is a FASTA header when it starts with the marker character. -/
def isHeaderLine (line : PyStr) : Bool :=
  line.headD ' ' == '>'

/-- Payload assembly of the external FASTA reader: each payload line is
right-stripped, the lines are concatenated, and space and carriage-return
characters are removed from the result. -/
def seqJoin (body : List PyStr) : PyStr :=
  ((body.map pyRstrip).flatten).filter (fun c => !(c == ' ' || c == '\r'))

/-- Modelled from the spec: the external FASTA reader (Bio.SeqIO.parse,
spec.md section 6), over a file given as its list of lines.  Lines before
the first header are skipped; a header line yields a record whose title is
the right-stripped text after the marker, with identifier and name the
title's first word and description the whole title; the following
non-header lines form the payload. -/
def parseFastaAux : Nat → List PyStr → List SeqRecord
  | _, [] => []
  | 0, _ :: _ => []
  | fuel + 1, l :: ls =>
    if isHeaderLine l then
      { id := firstWord (pyRstrip (l.drop 1))
        name := firstWord (pyRstrip (l.drop 1))
        description := pyRstrip (l.drop 1)
        seq := seqJoin (ls.takeWhile (fun x => !isHeaderLine x)) }
        :: parseFastaAux fuel (ls.dropWhile (fun x => !isHeaderLine x))
    else parseFastaAux fuel ls

/-- The reader over a whole file: the line count bounds the recursion
depth, so the fuel is never exhausted. -/
def parseFasta (lines : List PyStr) : List SeqRecord :=
  parseFastaAux lines.length lines

/-- The external FASTA writer's sequence wrapping, sixty characters per
line, structured with a fuel argument bounded by the payload length. -/
def chunkSeqAux : Nat → PyStr → List PyStr
  | _, [] => []
  | 0, _ :: _ => []
  | fuel + 1, c :: cs =>
    ((c :: cs).take 60) :: chunkSeqAux fuel ((c :: cs).drop 60)

/-- The external FASTA writer's sequence wrapping: chunks of sixty
characters per line. -/
def chunkSeq (s : PyStr) : List PyStr :=
  chunkSeqAux s.length s

/-- Modelled from the spec: the title line the external FASTA writer emits
for a record (Bio.SeqIO.write, spec.md section 6): the description itself
when its first word is the identifier, the identifier prepended otherwise,
and the identifier alone when the description is empty. -/
def fastaTitle (r : SeqRecord) : PyStr :=
  if !r.description.isEmpty && firstWord r.description == r.id then r.description
  else if !r.description.isEmpty then r.id ++ ' ' :: r.description
  else r.id

/-- Modelled from the spec: the lines the external FASTA writer emits for
one record: the marker plus the title, then the payload wrapped at sixty
columns. -/
def writeRecord (r : SeqRecord) : List PyStr :=
  ('>' :: fastaTitle r) :: chunkSeq r.seq

/-- Modelled from the spec: the external FASTA writer over a record list
(SeqIO.write to the output buffer). -/
def writeFasta (records : List SeqRecord) : List PyStr :=
  (records.map writeRecord).flatten

/-- The final local environment produced by executing a fragment body:
the variables the fragment assigned, as a name-to-value list (first
binding of a name is its final value). -/
abbrev Env := List (PyStr × PyStr)

/-- Python env.get(key, dflt) on the modelled environment. -/
def envGetD (env : Env) (key dflt : PyStr) : PyStr :=
  match env.find? (fun p => p.1 == key) with
  | some p => p.2
  | none => dflt

/-- Semantics of a successfully built fragment: from the two original
header fields and the injected lookup_map to either a raised exception
message or the final environment of assigned locals.  Python execution
itself cannot be embedded, so theorems quantify over this semantics. -/
abbrev FragmentSem := PyStr → PyStr → LookupMap → Except PyStr Env

/-- The generated wrapper's return line (src/app.py line 165):
locals().get of new_id with default original_id, and of new_description
with default original_description.  The modelled environment holds the
fragment's own assignments; the defaults are the unmodified parameters. -/
def applyModifier (sem : FragmentSem) (lookup_map : LookupMap)
    (original_id original_description : PyStr) : Except PyStr (PyStr × PyStr) :=
  match sem original_id original_description lookup_map with
  | .error e => .error e
  | .ok env =>
      .ok (envGetD env "new_id".toList original_id,
           envGetD env "new_description".toList original_description)

/-- A row of the preview table (src/app.py lines 182-192). -/
structure PreviewRow where
  originalId : PyStr
  newId : PyStr
  status : PyStr
deriving DecidableEq

/-- One iteration of the preview loop (src/app.py lines 177-192): a
success row with a Changed/Unchanged status, or an error row with the
sentinel "ERROR" and the exception text as status. -/
def previewRowOf (sem : FragmentSem) (lookup_map : LookupMap)
    (record : SeqRecord) : PreviewRow :=
  match applyModifier sem lookup_map record.id record.description with
  | .ok (new_id, _new_desc) =>
      { originalId := record.id
        newId := new_id
        status := if record.id ≠ new_id then "Changed".toList else "Unchanged".toList }
  | .error e =>
      { originalId := record.id
        newId := "ERROR".toList
        status := e }

/-- The preview loop over the sample records (src/app.py lines 177-192). -/
def previewRows (sem : FragmentSem) (lookup_map : LookupMap)
    (sample_records : List SeqRecord) : List PreviewRow :=
  sample_records.map (previewRowOf sem lookup_map)

/-- textwrap.indent(s, four spaces): prefix every line whose strip() is
nonempty with four spaces (src/app.py line 158). -/
def textwrapIndent (s : PyStr) : PyStr :=
  joinLines ((splitLines s).map
    (fun line => if (pyStrip line).isEmpty then line else "    ".toList ++ line))

/-- First two lines of the generated wrapper (src/app.py lines 162-163). -/
def wrapperHeader : PyStr :=
  "def dynamic_modifier(original_id, original_description):\n    import re\n".toList

/-- Final line of the generated wrapper (src/app.py line 165). -/
def wrapperFooter : PyStr :=
  "\n    return locals().get('new_id', original_id), locals().get('new_description', original_description)".toList

/-- full_function_str (src/app.py lines 161-166): the wrapper around the
normalized and four-space-indented fragment. -/
def full_function_str (logic_code : PyStr) : PyStr :=
  wrapperHeader ++ textwrapIndent (normalize_code_indentation logic_code) ++ wrapperFooter

/-- test_logic_safely (src/app.py lines 147-197): build the wrapper from
the fragment; on build failure return no rows and the syntax-error message
embedding the generated code; on success return one preview row per sample
record and no error.  pyExec stands for Python's exec of the wrapper. -/
def test_logic_safely (pyExec : PyStr → Except PyStr FragmentSem)
    (logic_code : PyStr) (sample_records : List SeqRecord)
    (lookup_map : LookupMap) : List PreviewRow × Option PyStr :=
  match pyExec (full_function_str logic_code) with
  | .error e =>
      ([], some ("Syntax Error: ".toList ++ e
        ++ "\n\nGenerated Code Context:\n".toList ++ full_function_str logic_code))
  | .ok sem => (previewRows sem lookup_map sample_records, none)

/-- The batch-apply loop (src/app.py lines 332-340): apply the modifier to
every record, update the header fields and clear the name on success, and
silently drop a record whose transformation raises. -/
def applyAllRecords (sem : FragmentSem) (lookup_map : LookupMap)
    (records : List SeqRecord) : List SeqRecord :=
  records.filterMap (fun r =>
    match applyModifier sem lookup_map r.id r.description with
    | .ok (nid, ndesc) => some { r with id := nid, description := ndesc, name := [] }
    | .error _ => none)

/-- The full Apply-to-All action (src/app.py lines 313-342): exec of the
wrapper is unguarded there, so a build failure propagates and no output is
produced; on success the transformed records are serialized to the output
buffer. -/
def batchApply (pyExec : PyStr → Except PyStr FragmentSem) (logic_code : PyStr)
    (lookup_map : LookupMap) (records : List SeqRecord) :
    Except PyStr (List PyStr) :=
  match pyExec (full_function_str logic_code) with
  | .error e => .error e
  | .ok sem => .ok (writeFasta (applyAllRecords sem lookup_map records))

/-- get_llm_logic (src/app.py lines 81-112): with a falsy (empty) api_key,
show an error and return None; otherwise call the model and return the
cleaned code.  The llm parameter stands for the model call plus the
markdown cleanup of lines 108-111.  The Bool records whether st.error was
called. -/
def get_llm_logic (llm : PyStr → Option PyStr → PyStr)
    (user_request api_key : PyStr) (current_code : Option PyStr) :
    Option PyStr × Bool :=
  if api_key.isEmpty then (none, true)
  else (some (llm user_request current_code), false)

/-- The Generate Initial Logic action (src/app.py lines 254-263), reachable
only while the stored fragment is None: the session's generated_code is
unconditionally set to the value returned by get_llm_logic. -/
def generateStep (llm : PyStr → Option PyStr → PyStr)
    (user_request api_key : PyStr) : Option PyStr × Bool :=
  get_llm_logic llm user_request api_key none

/-- The Update Logic (refinement) action (src/app.py lines 280-284): the
session's generated_code is unconditionally set to the value returned by
get_llm_logic called with the current code. -/
def refineStep (llm : PyStr → Option PyStr → PyStr)
    (generated_code : Option PyStr) (refine_request api_key : PyStr) :
    Option PyStr × Bool :=
  let r := get_llm_logic llm refine_request api_key generated_code
  (r.1, r.2)

/-- Number of columns of the parsed table, df.shape[1] for a table whose
rows all have the same width. -/
def numCols (rows : List (List PyStr)) : Nat :=
  match rows with
  | [] => 0
  | r :: _ => r.length

/-- The pair list behind dict(zip(df.iloc[:, 0].str.strip(),
df.iloc[:, 1].str.strip())) (src/app.py line 231): each row contributes
its stripped first and second cells, in row order. -/
def csv_to_lookup (rows : List (List PyStr)) : LookupMap :=
  rows.map (fun row => (pyStrip (row.headD []), pyStrip (row.tail.headD [])))

/-- The CSV-loading block (src/app.py lines 226-234): on a parse error the
map stays empty and an error is shown; on success the map is built only
when the table has at least two columns, silently staying empty otherwise.
The tabular parse itself (pandas read_csv) is external and enters as the
already-parsed rows or its raised error. -/
def load_csv (parse_result : Except PyStr (List (List PyStr))) :
    LookupMap × Option PyStr :=
  match parse_result with
  | .error e => ([], some ("Error reading CSV: ".toList ++ e))
  | .ok rows =>
      if 2 ≤ numCols rows then (csv_to_lookup rows, none)
      else ([], none)

/-- Semantics of the fragment new_id = original_id.upper() : it assigns
new_id to the uppercased identifier and nothing else, and never raises. -/
def upperFragSem : FragmentSem :=
  fun original_id _original_description _lookup_map =>
    .ok [("new_id".toList, pyUpper original_id)]

/-- Semantics of the identity fragment
new_id = original_id; new_description = original_description :
both outputs are assigned to the originals, and it never raises. -/
def identityFragSem : FragmentSem :=
  fun original_id original_description _lookup_map =>
    .ok [("new_id".toList, original_id),
         ("new_description".toList, original_description)]

/-- Is an Except value a success.  Used to describe which records survive
the batch apply. -/
def exOk {ε α : Type} : Except ε α → Bool
  | .ok _ => true
  | .error _ => false

/-- A well-formed parsed record: nonempty identifier, description whose
first word is the identifier (as the reader guarantees) and which carries
no trailing whitespace and no embedded newline, and a payload free of
whitespace, newline and header-marker characters. -/
def wfRecord (r : SeqRecord) : Prop :=
  r.id ≠ [] ∧
  firstWord r.description = r.id ∧
  pyRstrip r.description = r.description ∧
  (∀ c ∈ r.description, c ≠ '\n') ∧
  (∀ c ∈ r.seq, pyIsSpace c = false ∧ c ≠ '>' ∧ c ≠ '\n')

instance wfRecordDecidable (r : SeqRecord) : Decidable (wfRecord r) := by
  unfold wfRecord
  infer_instance

/-- A line list that is empty or begins with a header line: the shape of
everything the FASTA writer emits. -/
def startsWithHeader (lines : List PyStr) : Prop :=
  lines = [] ∨ ∃ l ls, lines = l :: ls ∧ isHeaderLine l = true

/-- Sample record with identifier a, for witnesses. -/
def sampleRecA : SeqRecord :=
  { id := "a".toList, name := "a".toList, description := "a desc".toList, seq := "ACGT".toList }

/-- Sample record with identifier b, for witnesses. -/
def sampleRecB : SeqRecord :=
  { id := "b".toList, name := "b".toList, description := "b desc".toList, seq := "GGTT".toList }

/-- Sample record with identifier c, for witnesses. -/
def sampleRecC : SeqRecord :=
  { id := "c".toList, name := "c".toList, description := "c desc".toList, seq := "TTAA".toList }

/-- A fragment semantics that raises exactly on identifier b, for
witnesses. -/
def failOnBSem : FragmentSem :=
  fun original_id _ _ =>
    if original_id == "b".toList then .error "boom".toList else .ok []

/-- A build step that always fails, standing for exec of a malformed
wrapper, for witnesses. -/
def failExec : PyStr → Except PyStr FragmentSem :=
  fun _ => .error "invalid syntax".toList

/-- Two-column table in which two rows share the trimmed first column, for
the C8 counterexample. -/
def dupRows : List (List PyStr) :=
  [["a ".toList, "X".toList], [" a".toList, "Y".toList]]

/-- Three-column table with distinct trimmed first columns, for witnesses. -/
def wideRows : List (List PyStr) :=
  [["x ".toList, " 1".toList, "z".toList], ["y".toList, "2".toList, "w".toList]]

example : normalize_code_indentation "  a\n\n  global x\n   b\n a".toList
    = "a\n b\n".toList := by decide

example : normalizeSpec "  a\n\n  global x\n   b\n a".toList
    = "a\n b\n".toList := by decide

example : normalize_code_indentation (addIndent 3 "  a\n   b\n a".toList)
    = normalize_code_indentation "  a\n   b\n a".toList := by decide

/-! Helper lemmas about the Python string primitives. -/

theorem length_dropWhile_le' {α : Type} (p : α → Bool) (l : List α) :
    (l.dropWhile p).length ≤ l.length := by
  induction l with
  | nil => simp [List.dropWhile]
  | cons a as ih =>
    simp only [List.dropWhile]
    cases p a
    · simp
    · simpa using Nat.le_succ_of_le ih

theorem dropWhile_replicate_space (k : Nat) (l : PyStr) :
    (List.replicate k ' ' ++ l).dropWhile pyIsSpace = l.dropWhile pyIsSpace := by
  induction k with
  | zero => simp
  | succ n ih =>
    have hsp : pyIsSpace ' ' = true := by decide
    simp [List.replicate_succ, List.dropWhile, hsp, ih]

theorem pyLstrip_replicate (k : Nat) (l : PyStr) :
    pyLstrip (List.replicate k ' ' ++ l) = pyLstrip l := by
  simp [pyLstrip, dropWhile_replicate_space]

theorem pyStrip_replicate (k : Nat) (l : PyStr) :
    pyStrip (List.replicate k ' ' ++ l) = pyStrip l := by
  simp [pyStrip, pyLstrip_replicate]

theorem isValidLine_replicate (k : Nat) (l : PyStr) :
    isValidLine (List.replicate k ' ' ++ l) = isValidLine l := by
  simp [isValidLine, pyStrip_replicate]

theorem isEmpty_dropWhile (p : Char → Bool) (l : PyStr) :
    (l.dropWhile p).isEmpty = l.all p := by
  induction l with
  | nil => simp [List.dropWhile]
  | cons a as ih =>
    simp only [List.dropWhile]
    cases hp : p a
    · simp [hp]
    · simpa [hp] using ih

theorem all_dropWhile (p : Char → Bool) (l : PyStr) :
    (l.dropWhile p).all p = l.all p := by
  induction l with
  | nil => simp [List.dropWhile]
  | cons a as ih =>
    simp only [List.dropWhile]
    cases hp : p a
    · simp [hp]
    · simpa [hp] using ih

theorem isEmpty_pyStrip (l : PyStr) :
    (pyStrip l).isEmpty = l.all pyIsSpace := by
  have hrev : ∀ (x : PyStr), x.reverse.isEmpty = x.isEmpty := by
    intro x
    cases hx : x.reverse.isEmpty <;> cases hy : x.isEmpty <;>
      simp [List.isEmpty_iff] at hx hy <;> simp_all
  unfold pyStrip pyRstrip
  rw [hrev, isEmpty_dropWhile]
  have h2 : (pyLstrip l).reverse.all pyIsSpace = (pyLstrip l).all pyIsSpace :=
    List.all_reverse
  rw [h2, pyLstrip, all_dropWhile]

theorem dropWhile_eq_self_of_head (p : Char → Bool) (l : PyStr)
    (h : ∀ c ∈ l, p c = false) : l.dropWhile p = l := by
  cases l with
  | nil => simp [List.dropWhile]
  | cons a as =>
    have := h a (by simp)
    simp [List.dropWhile, this]

theorem pyRstrip_eq_self (l : PyStr) (h : ∀ c ∈ l, pyIsSpace c = false) :
    pyRstrip l = l := by
  unfold pyRstrip
  rw [dropWhile_eq_self_of_head pyIsSpace l.reverse (by simpa using h)]
  simp


/-! Claim C1 - missing credential. -/

/-- C1 (code_bug evidence): with an empty credential the guard of
get_llm_logic does report an error and return None without calling the
model, and the generate path (whose stored fragment is None) stays at
None; but the refine path assigns the returned None into the session
unconditionally, so a session holding a prior fragment has its stored
fragment replaced by None instead of left unchanged, contradicting the
claim. -/
theorem C1_empty_key_clobbers_fragment :
    generateStep (fun _ _ => "new_id = original_id".toList)
        "rename the ids".toList [] = (none, true) ∧
    refineStep (fun _ _ => "new_id = original_id".toList)
        (some "new_id = lookup_map.get(original_id, original_id)".toList)
        "make the ID uppercase".toList [] = (none, true) ∧
    (none : Option PyStr)
      ≠ some "new_id = lookup_map.get(original_id, original_id)".toList := by
  refine ⟨rfl, rfl, by simp⟩

/-! Claim C10 - narrow lookup tables load silently as empty. -/

/-- C10: a lookup table that parses successfully but has fewer than two
columns yields the empty map with no error message, while a failed
tabular parse yields the empty map together with an error message. -/
theorem C10_narrow_table_silent (e : PyStr) (rows : List (List PyStr))
    (h : numCols rows < 2) :
    load_csv (.ok rows) = ([], none) ∧
    load_csv (.error e) = ([], some ("Error reading CSV: ".toList ++ e)) := by
  constructor
  · have hn : ¬ 2 ≤ numCols rows := by omega
    simp [load_csv, hn]
  · rfl

/-- Witness for C10 at a one-column table and a concrete parse error. -/
theorem C10_witness :
    load_csv (.ok [["a".toList]]) = ([], none) ∧
    load_csv (.error "bad file".toList)
      = ([], some ("Error reading CSV: ".toList ++ "bad file".toList)) :=
  C10_narrow_table_silent "bad file".toList [["a".toList]] (by decide)

/-! Claim C5 - build failure is a distinct error, no records processed. -/

/-- C5: when the wrapper built from a fragment fails to construct, the
preview returns an empty row set together with a build error message (a
channel distinct from the per-record rows), that message embeds the
generated wrapper, which itself embeds the normalized indented fragment
text, and the batch apply aborts with the error, emitting no output
records. -/
theorem C5_build_error (pyExec : PyStr → Except PyStr FragmentSem)
    (logic_code : PyStr) (records : List SeqRecord) (lookup_map : LookupMap)
    (e : PyStr) (h : pyExec (full_function_str logic_code) = .error e) :
    test_logic_safely pyExec logic_code records lookup_map =
      ([], some ("Syntax Error: ".toList ++ e
        ++ "\n\nGenerated Code Context:\n".toList ++ full_function_str logic_code)) ∧
    List.IsInfix (full_function_str logic_code)
      ("Syntax Error: ".toList ++ e
        ++ "\n\nGenerated Code Context:\n".toList ++ full_function_str logic_code) ∧
    List.IsInfix (textwrapIndent (normalize_code_indentation logic_code))
      (full_function_str logic_code) ∧
    batchApply pyExec logic_code lookup_map records = .error e := by
  refine ⟨?_, ?_, ?_, ?_⟩
  · simp [test_logic_safely, h]
  · exact ⟨"Syntax Error: ".toList ++ e ++ "\n\nGenerated Code Context:\n".toList,
      [], by simp⟩
  · exact ⟨wrapperHeader, wrapperFooter, by simp [full_function_str]⟩
  · simp [batchApply, h]

/-- Witness for C5 at an always-failing build step. -/
theorem C5_witness :
    batchApply failExec "if x:".toList [] [] = .error "invalid syntax".toList :=
  (C5_build_error failExec "if x:".toList [] [] "invalid syntax".toList rfl).2.2.2


/-! Claim C4 - defaulting of unassigned outputs. -/

/-- C4: when the fragment's execution assigns no new_id (respectively no
new_description), the evaluator returns the original identifier
(respectively the original description) instead of failing; in particular
the fragment assigning new_id to original_id.upper() maps identifier seq1
to SEQ1 with the description unchanged. -/
theorem C4_unassigned_outputs_default (sem : FragmentSem)
    (lookup_map : LookupMap) (oid odesc : PyStr) (env : Env)
    (h : sem oid odesc lookup_map = .ok env) :
    (env.find? (fun p => p.1 == "new_id".toList) = none →
      (applyModifier sem lookup_map oid odesc).map Prod.fst = .ok oid) ∧
    (env.find? (fun p => p.1 == "new_description".toList) = none →
      (applyModifier sem lookup_map oid odesc).map Prod.snd = .ok odesc) ∧
    (∀ d, applyModifier upperFragSem lookup_map "seq1".toList d
      = .ok ("SEQ1".toList, d)) := by
  refine ⟨?_, ?_, ?_⟩
  · intro hn
    have hn' : env.find? (fun p => p.1 == ['n', 'e', 'w', '_', 'i', 'd']) = none := hn
    simp [applyModifier, h, envGetD, hn']
    rfl
  · intro hn
    have hn' : env.find?
        (fun p => p.1 == ['n', 'e', 'w', '_', 'd', 'e', 's', 'c', 'r', 'i', 'p', 't', 'i', 'o', 'n'])
        = none := hn
    simp [applyModifier, h, envGetD, hn']
    rfl
  · intro d
    rfl

/-- Witness for C4: a fragment assigning nothing returns the original
identifier, and the uppercasing fragment maps seq1 to SEQ1. -/
theorem C4_witness :
    (applyModifier (fun _ _ _ => (.ok [] : Except PyStr Env)) []
        "seq1".toList "seq1 some text".toList).map Prod.fst = .ok "seq1".toList ∧
    applyModifier upperFragSem [] "seq1".toList "seq1 some text".toList
      = .ok ("SEQ1".toList, "seq1 some text".toList) := by
  obtain ⟨h1, _h2, h3⟩ := C4_unassigned_outputs_default
    (fun _ _ _ => (.ok [] : Except PyStr Env)) []
    "seq1".toList "seq1 some text".toList [] rfl
  exact ⟨h1 rfl, h3 "seq1 some text".toList⟩

/-! Claim C9 - the Changed/Unchanged status depends only on the id. -/

/-- C9: for a record processed without error, the preview status is
Changed exactly when the new identifier differs from the original one and
Unchanged exactly when they are equal, independently of the description
outputs; a fragment changing only the description is therefore reported
Unchanged. -/
theorem C9_status_only_id (sem : FragmentSem) (lk : LookupMap)
    (r : SeqRecord) (nid ndesc : PyStr)
    (h : applyModifier sem lk r.id r.description = .ok (nid, ndesc)) :
    ((previewRowOf sem lk r).status = "Changed".toList ↔ nid ≠ r.id) ∧
    ((previewRowOf sem lk r).status = "Unchanged".toList ↔ nid = r.id) := by
  have hrow : (previewRowOf sem lk r).status
      = if r.id ≠ nid then "Changed".toList else "Unchanged".toList := by
    simp [previewRowOf, h]
  rw [hrow]
  by_cases hc : nid = r.id
  · have : ¬ (r.id ≠ nid) := by simp [hc]
    rw [if_neg this]
    constructor <;> simp [hc]
  · have : r.id ≠ nid := fun h2 => hc h2.symm
    rw [if_pos this]
    constructor <;> simp [hc]

/-- Witness for C9: the identity fragment leaves the identifier alone and
the preview reports Unchanged. -/
theorem C9_witness :
    (previewRowOf identityFragSem [] sampleRecA).status = "Unchanged".toList := by
  have h := C9_status_only_id identityFragSem [] sampleRecA
    "a".toList "a desc".toList rfl
  exact h.2.mpr rfl


/-! Claim C2 - per-record runtime errors never abort a run. -/

/-- C2: the preview produces exactly one row per sample record, a record
whose transformation raises contributes an error row carrying the sentinel
ERROR and the exception text as status (the exception is not propagated,
previewRows being total), and the batch apply outputs exactly the
records whose transformation succeeded, transformed, in input order, the
failing ones being silently dropped. -/
theorem C2_per_record_errors (sem : FragmentSem) (lk : LookupMap)
    (records : List SeqRecord) :
    (previewRows sem lk records).length = records.length ∧
    (∀ r ∈ records, ∀ e, applyModifier sem lk r.id r.description = .error e →
      ({ originalId := r.id, newId := "ERROR".toList, status := e } : PreviewRow)
        ∈ previewRows sem lk records) ∧
    applyAllRecords sem lk records =
      (records.filter (fun r => exOk (applyModifier sem lk r.id r.description))).map
        (fun r => match applyModifier sem lk r.id r.description with
          | .ok (nid, ndesc) => { r with id := nid, description := ndesc, name := [] }
          | .error _ => r) := by
  refine ⟨?_, ?_, ?_⟩
  · simp [previewRows]
  · intro r hr e he
    have hrow : previewRowOf sem lk r
        = { originalId := r.id, newId := "ERROR".toList, status := e } := by
      simp [previewRowOf, he]
    exact hrow ▸ List.mem_map_of_mem (previewRowOf sem lk) hr
  · induction records with
    | nil => rfl
    | cons r rs ih =>
      cases hap : applyModifier sem lk r.id r.description with
      | ok v =>
        obtain ⟨nid, ndesc⟩ := v
        simp [applyAllRecords, List.filterMap_cons, hap, List.filter_cons, exOk] at ih ⊢
        exact ih
      | error err =>
        simp [applyAllRecords, List.filterMap_cons, hap, List.filter_cons, exOk] at ih ⊢
        exact ih

/-- Witness for C2: on three records where the fragment raises exactly on
identifier b, the preview has three rows including the error row for b,
and the batch output keeps a and c, transformed, in order. -/
theorem C2_witness :
    (previewRows failOnBSem [] [sampleRecA, sampleRecB, sampleRecC]).length = 3 ∧
    ({ originalId := "b".toList, newId := "ERROR".toList, status := "boom".toList }
        : PreviewRow)
      ∈ previewRows failOnBSem [] [sampleRecA, sampleRecB, sampleRecC] ∧
    applyAllRecords failOnBSem [] [sampleRecA, sampleRecB, sampleRecC] =
      [{ sampleRecA with name := [] }, { sampleRecC with name := [] }] := by
  obtain ⟨h1, h2, h3⟩ :=
    C2_per_record_errors failOnBSem [] [sampleRecA, sampleRecB, sampleRecC]
  refine ⟨h1, ?_, ?_⟩
  · exact h2 sampleRecB (by simp) "boom".toList rfl
  · rw [h3]
    decide

/-! Claim C8 - lookup table loading. -/

/-- Last written binding wins in a Python dict, so when the keys are
pairwise distinct every row's binding is retrievable. -/
theorem pyDict_nodup (ps : LookupMap) (hnd : (ps.map Prod.fst).Nodup) :
    ∀ p ∈ ps, pyDict ps p.1 = some p.2 := by
  induction ps with
  | nil =>
    intro p hp
    simp at hp
  | cons q rest ih =>
    intro p hp
    have hq : q.1 ∉ rest.map Prod.fst := by
      simp only [List.map_cons, List.nodup_cons] at hnd
      exact hnd.1
    have hnd' : (rest.map Prod.fst).Nodup := by
      simp only [List.map_cons, List.nodup_cons] at hnd
      exact hnd.2
    rcases List.mem_cons.mp hp with hpq | hpr
    · subst hpq
      have hnone : rest.reverse.find? (fun x => x.1 == p.1) = none := by
        rw [List.find?_eq_none]
        intro x hx
        have : x.1 ∈ rest.map Prod.fst :=
          List.mem_map_of_mem Prod.fst (List.mem_reverse.mp hx)
        simp only [beq_iff_eq]
        intro hEq
        exact hq (hEq ▸ this)
      simp [pyDict, List.reverse_cons, List.find?_append, hnone]
    · have hrec := ih hnd' p hpr
      simp only [pyDict, Option.map_eq_some'] at hrec
      obtain ⟨a, ha, ha2⟩ := hrec
      simp [pyDict, List.reverse_cons, List.find?_append, ha, ha2]

/-- C8 counterexample: a two-column table in which two rows share the
trimmed first column a; the loaded dict cannot send the first such row's
key to that row's second column, refuting the claim as universally
stated. -/
theorem C8_counterexample :
    ["a ".toList, "X".toList] ∈ dupRows ∧ 2 ≤ numCols dupRows ∧
    pyDict (csv_to_lookup dupRows) (pyStrip "a ".toList)
      ≠ some (pyStrip "X".toList) := by
  decide

/-- C8 amended: for a two-or-more-column tabular input whose trimmed
first-column entries are pairwise distinct, the loaded map sends each
row's trimmed first column to that row's trimmed second column, and
columns beyond the second are ignored. -/
theorem C8_lookup_amended (rows : List (List PyStr))
    (hw : ∀ row ∈ rows, 2 ≤ row.length)
    (hnodup : (rows.map (fun row => pyStrip (row.headD []))).Nodup) :
    (∀ row ∈ rows,
      pyDict (csv_to_lookup rows) (pyStrip (row.headD []))
        = some (pyStrip (row.tail.headD []))) ∧
    csv_to_lookup rows = csv_to_lookup (rows.map (fun row => row.take 2)) := by
  constructor
  · intro row hrow
    have hkeys : ((csv_to_lookup rows).map Prod.fst).Nodup := by
      simpa [csv_to_lookup, List.map_map, Function.comp] using hnodup
    have hmem : (pyStrip (row.headD []), pyStrip (row.tail.headD []))
        ∈ csv_to_lookup rows :=
      List.mem_map_of_mem _ hrow
    exact pyDict_nodup (csv_to_lookup rows) hkeys _ hmem
  · unfold csv_to_lookup
    rw [List.map_map]
    refine List.map_congr_left ?_
    intro row hrow
    have hlen := hw row hrow
    cases row with
    | nil => simp at hlen
    | cons a row' =>
      cases row' with
      | nil => simp at hlen
      | cons b t => rfl

/-- Witness for C8 amended at a concrete three-column table with distinct
trimmed keys. -/
theorem C8_witness :
    pyDict (csv_to_lookup wideRows) "x".toList = some "1".toList ∧
    csv_to_lookup wideRows
      = csv_to_lookup (wideRows.map (fun row => row.take 2)) := by
  obtain ⟨h1, h2⟩ := C8_lookup_amended wideRows (by decide) (by decide)
  exact ⟨h1 ["x ".toList, " 1".toList, "z".toList] (by simp [wideRows]), h2⟩


/-! Claim C3 - the normalizer behaves as the specification describes. -/

theorem takeWhile_add_dropWhile_length (p : Char → Bool) (l : PyStr) :
    (l.takeWhile p).length + (l.dropWhile p).length = l.length := by
  conv_rhs => rw [← List.takeWhile_append_dropWhile p l]
  rw [List.length_append]

/-- C3: the code normalizer agrees, on every input, with the
specification's description: drop blank and global-declaration lines,
compute the baseline as the leading-whitespace count of the first
remaining line, remove exactly that many leading columns from each
remaining line with a full left-strip fallback for shorter lines, and
return the empty string when no line remains. -/
theorem C3_normalizer_matches_spec (code_str : PyStr) :
    normalizeSpec code_str = normalize_code_indentation code_str := by
  have hfilter : (splitLines code_str).filter
      (fun line => !(line.all pyIsSpace) && !(globalKw.isPrefixOf (pyStrip line)))
      = (splitLines code_str).filter isValidLine := by
    refine List.filter_congr ?_
    intro line _
    simp [isValidLine, isEmpty_pyStrip]
  unfold normalizeSpec normalize_code_indentation
  rw [hfilter]
  cases hv : (splitLines code_str).filter isValidLine with
  | nil => rfl
  | cons first rest =>
    have hbase : (first.takeWhile pyIsSpace).length
        = first.length - (pyLstrip first).length := by
      have h1 := takeWhile_add_dropWhile_length pyIsSpace first
      have h2 : (pyLstrip first).length ≤ first.length := length_dropWhile_le' _ _
      unfold pyLstrip at h2 ⊢
      omega
    simp only [normalizeValid]
    rw [hbase]
    congr 1
    refine List.map_congr_left ?_
    intro line _
    by_cases hl : first.length - (pyLstrip first).length ≤ line.length
    · rw [if_neg (by omega), stripBaseline, if_pos hl]
    · rw [if_pos (by omega), stripBaseline, if_neg hl]
      rfl


/-! Claim C7 - normalization is invariant under uniform indentation. -/

theorem splitLines_ne_nil (s : PyStr) : splitLines s ≠ [] := by
  induction s with
  | nil => simp [splitLines]
  | cons c cs ih =>
    simp only [splitLines]
    by_cases hc : c = '\n'
    · simp [hc]
    · rw [if_neg hc]
      cases h : splitLines cs with
      | nil => simp
      | cons l ls => simp

theorem splitLines_no_newline (s : PyStr) :
    ∀ l ∈ splitLines s, ∀ c ∈ l, c ≠ '\n' := by
  induction s with
  | nil =>
    intro l hl
    simp [splitLines] at hl
    subst hl
    simp
  | cons a as ih =>
    intro l hl c hc
    simp only [splitLines] at hl
    by_cases ha : a = '\n'
    · rw [if_pos ha] at hl
      rcases List.mem_cons.mp hl with h1 | h2
      · subst h1
        simp at hc
      · exact ih l h2 c hc
    · rw [if_neg ha] at hl
      cases hsp : splitLines as with
      | nil =>
        rw [hsp] at hl
        simp at hl
        subst hl
        rcases List.mem_cons.mp hc with hca | hcm
        · subst hca
          exact ha
        · simp at hcm
      | cons m ms =>
        rw [hsp] at hl
        rcases List.mem_cons.mp hl with h1 | h2
        · subst h1
          rcases List.mem_cons.mp hc with hca | hcm
          · subst hca
            exact ha
          · exact ih m (by rw [hsp]; exact List.mem_cons_self m ms) c hcm
        · exact ih l (by rw [hsp]; exact List.mem_cons_of_mem m h2) c hc

theorem splitLines_single (l : PyStr) (h : ∀ c ∈ l, c ≠ '\n') :
    splitLines l = [l] := by
  induction l with
  | nil => rfl
  | cons a as ih =>
    have ha : a ≠ '\n' := h a (by simp)
    simp only [splitLines, if_neg ha]
    rw [ih (fun c hc => h c (by simp [hc]))]

theorem splitLines_append_newline (l rest : PyStr) (h : ∀ c ∈ l, c ≠ '\n') :
    splitLines (l ++ '\n' :: rest) = l :: splitLines rest := by
  induction l with
  | nil => simp [splitLines]
  | cons a as ih =>
    have ha : a ≠ '\n' := h a (by simp)
    simp only [List.cons_append, splitLines, if_neg ha, List.append_eq]
    rw [ih (fun c hc => h c (by simp [hc]))]

theorem splitLines_joinLines :
    ∀ (ls : List PyStr), (∀ l ∈ ls, ∀ c ∈ l, c ≠ '\n') → ls ≠ [] →
      splitLines (joinLines ls) = ls := by
  intro ls
  induction ls with
  | nil =>
    intro _ hne
    exact absurd rfl hne
  | cons l ls' ih =>
    intro h _
    cases ls' with
    | nil => exact splitLines_single l (h l (by simp))
    | cons m ms =>
      have hjoin : joinLines (l :: m :: ms) = l ++ '\n' :: joinLines (m :: ms) := rfl
      rw [hjoin, splitLines_append_newline l _ (h l (by simp))]
      rw [ih (fun x hx => h x (List.mem_cons_of_mem _ hx)) (by simp)]

theorem drop_replicate_append (k n : Nat) (l : PyStr) :
    (List.replicate k ' ' ++ l).drop (k + n) = l.drop n := by
  induction k with
  | zero => simp
  | succ j ih =>
    simp only [List.replicate_succ, List.cons_append, Nat.succ_add, List.drop_succ_cons]
    exact ih

theorem stripBaseline_pad (k b : Nat) (l : PyStr) :
    stripBaseline (k + b) (List.replicate k ' ' ++ l) = stripBaseline b l := by
  unfold stripBaseline
  by_cases hb : b ≤ l.length
  · have h1 : k + b ≤ (List.replicate k ' ' ++ l).length := by
      simp only [List.length_append, List.length_replicate]
      omega
    rw [if_pos h1, if_pos hb, drop_replicate_append]
  · have h1 : ¬ (k + b ≤ (List.replicate k ' ' ++ l).length) := by
      simp only [List.length_append, List.length_replicate]
      omega
    rw [if_neg h1, if_neg hb, pyLstrip_replicate]

/-- C7: normalizing a fragment with k extra leading space columns on every
line yields exactly the normalization of the unindented fragment, and
normalizing an already-baseline-aligned fragment twice yields the same
result as normalizing it once. -/
theorem C7_normalize_indent_invariant (code : PyStr) (k : Nat) :
    normalize_code_indentation (addIndent k code) = normalize_code_indentation code ∧
    (baselineAligned code = true →
      normalize_code_indentation (normalize_code_indentation code)
        = normalize_code_indentation code) := by
  constructor
  · unfold addIndent normalize_code_indentation
    have hsplit : splitLines (joinLines ((splitLines code).map
          (fun line => List.replicate k ' ' ++ line)))
        = (splitLines code).map (fun line => List.replicate k ' ' ++ line) := by
      apply splitLines_joinLines
      · intro l hl c hc
        obtain ⟨l0, hl0, rfl⟩ := List.mem_map.mp hl
        rcases List.mem_append.mp hc with h1 | h2
        · have hc' := List.eq_of_mem_replicate h1
          subst hc'
          decide
        · exact splitLines_no_newline code l0 hl0 c h2
      · simp [splitLines_ne_nil code]
    rw [hsplit]
    have hfilterm : ((splitLines code).map
          (fun line => List.replicate k ' ' ++ line)).filter isValidLine
        = ((splitLines code).filter isValidLine).map
          (fun line => List.replicate k ' ' ++ line) := by
      rw [List.filter_map]
      congr 1
      refine List.filter_congr ?_
      intro x _
      simp [Function.comp, isValidLine_replicate]
    rw [hfilterm]
    cases hv : (splitLines code).filter isValidLine with
    | nil => rfl
    | cons first rest =>
      simp only [List.map_cons, normalizeValid]
      have hb : (List.replicate k ' ' ++ first).length
          - (pyLstrip (List.replicate k ' ' ++ first)).length
          = k + (first.length - (pyLstrip first).length) := by
        rw [pyLstrip_replicate]
        have hle : (pyLstrip first).length ≤ first.length := length_dropWhile_le' _ _
        simp only [List.length_append, List.length_replicate]
        omega
      rw [hb]
      congr 1
      congr 1
      · exact stripBaseline_pad k _ first
      · rw [List.map_map]
        refine List.map_congr_left ?_
        intro l _
        exact stripBaseline_pad k _ l
  · intro hal
    unfold baselineAligned at hal
    cases hv : (splitLines code).filter isValidLine with
    | nil =>
      have hz : normalize_code_indentation code = [] := by
        unfold normalize_code_indentation
        rw [hv]
        rfl
      rw [hz]
      decide
    | cons first rest =>
      rw [hv] at hal
      simp only [List.isEmpty_iff] at hal
      have htw : first.takeWhile pyIsSpace = [] := hal
      have hlst : pyLstrip first = first := by
        unfold pyLstrip
        cases first with
        | nil => rfl
        | cons a as =>
          by_cases hpa : pyIsSpace a
          · rw [List.takeWhile_cons_of_pos hpa] at htw
            simp at htw
          · rw [List.dropWhile_cons_of_neg hpa]
      have hb0 : first.length - (pyLstrip first).length = 0 := by
        rw [hlst]
        omega
      have hmapid : (first :: rest).map (stripBaseline 0) = first :: rest := by
        conv_rhs => rw [← List.map_id (first :: rest)]
        refine List.map_congr_left ?_
        intro l _
        unfold stripBaseline
        rw [if_pos (Nat.zero_le _)]
        simp
      have hnorm : normalize_code_indentation code = joinLines (first :: rest) := by
        unfold normalize_code_indentation
        rw [hv]
        simp only [normalizeValid, hb0]
        rw [hmapid]
      rw [hnorm]
      unfold normalize_code_indentation
      have hnl : ∀ l ∈ first :: rest, ∀ c ∈ l, c ≠ '\n' := by
        intro l hl
        have hmem : l ∈ splitLines code := by
          rw [← hv] at hl
          exact List.mem_of_mem_filter hl
        exact splitLines_no_newline code l hmem
      rw [splitLines_joinLines _ hnl (by simp)]
      have hfs : (first :: rest).filter isValidLine = first :: rest := by
        rw [List.filter_eq_self]
        intro a ha
        rw [← hv] at ha
        exact List.of_mem_filter ha
      rw [hfs]
      simp only [normalizeValid, hb0]
      rw [hmapid]

/-- Witness for C7: a concrete fragment, uniformly indented by two
columns, normalizes to the same string, and normalizing the aligned
fragment twice equals normalizing it once. -/
theorem C7_witness :
    normalize_code_indentation (addIndent 2 "new_id = x\n  y = 1".toList)
      = normalize_code_indentation "new_id = x\n  y = 1".toList ∧
    normalize_code_indentation
        (normalize_code_indentation "new_id = x\n  y = 1".toList)
      = normalize_code_indentation "new_id = x\n  y = 1".toList := by
  obtain ⟨h1, h2⟩ := C7_normalize_indent_invariant "new_id = x\n  y = 1".toList 2
  exact ⟨h1, h2 (by decide)⟩


/-! Claim C6 - round trip with the identity fragment. -/

theorem parseFastaAux_fuel :
    ∀ (n m : Nat) (lines : List PyStr), lines.length ≤ n → lines.length ≤ m →
      parseFastaAux n lines = parseFastaAux m lines := by
  intro n
  induction n with
  | zero =>
    intro m lines hn _
    have h0 : lines = [] := List.eq_nil_of_length_eq_zero (Nat.le_zero.mp hn)
    subst h0
    cases m <;> rfl
  | succ n ih =>
    intro m lines hn hm
    cases lines with
    | nil => cases m <;> rfl
    | cons l ls =>
      cases m with
      | zero => simp at hm
      | succ m' =>
        simp only [List.length_cons] at hn hm
        simp only [parseFastaAux]
        by_cases hh : isHeaderLine l
        · rw [if_pos hh, if_pos hh]
          congr 1
          have hdl : (ls.dropWhile (fun x => !isHeaderLine x)).length ≤ ls.length :=
            length_dropWhile_le' _ _
          exact ih m' _ (by omega) (by omega)
        · rw [if_neg hh, if_neg hh]
          exact ih m' ls (by omega) (by omega)

theorem chunkSeqAux_flatten :
    ∀ (n : Nat) (s : PyStr), s.length ≤ n → (chunkSeqAux n s).flatten = s := by
  intro n
  induction n with
  | zero =>
    intro s hs
    have h0 : s = [] := List.eq_nil_of_length_eq_zero (Nat.le_zero.mp hs)
    subst h0
    rfl
  | succ n ih =>
    intro s hs
    cases s with
    | nil => rfl
    | cons c cs =>
      have hlen : ((c :: cs).drop 60).length ≤ n := by
        rw [List.length_drop]
        simp only [List.length_cons] at hs ⊢
        omega
      simp only [chunkSeqAux, List.flatten_cons]
      rw [ih _ hlen]
      exact List.take_append_drop 60 (c :: cs)

theorem chunkSeqAux_mem :
    ∀ (n : Nat) (s : PyStr), s.length ≤ n →
      ∀ c ∈ chunkSeqAux n s, c ≠ [] ∧ ∀ x ∈ c, x ∈ s := by
  intro n
  induction n with
  | zero =>
    intro s hs c hc
    have h0 : s = [] := List.eq_nil_of_length_eq_zero (Nat.le_zero.mp hs)
    subst h0
    simp [chunkSeqAux] at hc
  | succ n ih =>
    intro s hs c hc
    cases s with
    | nil => simp [chunkSeqAux] at hc
    | cons a as =>
      simp only [chunkSeqAux] at hc
      rcases List.mem_cons.mp hc with h1 | h2
      · subst h1
        refine ⟨?_, ?_⟩
        · simp [List.take_eq_nil_iff]
        · intro x hx
          exact (List.take_sublist 60 (a :: as)).subset hx
      · have hlen : ((a :: as).drop 60).length ≤ n := by
          rw [List.length_drop]
          simp only [List.length_cons] at hs ⊢
          omega
        obtain ⟨hne, hsub⟩ := ih _ hlen c h2
        exact ⟨hne, fun x hx => (List.drop_sublist 60 (a :: as)).subset (hsub x hx)⟩

theorem chunkSeq_flatten (s : PyStr) : (chunkSeq s).flatten = s :=
  chunkSeqAux_flatten s.length s (Nat.le_refl _)

theorem chunkSeq_mem (s : PyStr) : ∀ c ∈ chunkSeq s, c ≠ [] ∧ ∀ x ∈ c, x ∈ s :=
  chunkSeqAux_mem s.length s (Nat.le_refl _)

theorem seqJoin_chunkSeq (s : PyStr) (h : ∀ c ∈ s, pyIsSpace c = false) :
    seqJoin (chunkSeq s) = s := by
  unfold seqJoin
  have hmap : (chunkSeq s).map pyRstrip = chunkSeq s := by
    conv_rhs => rw [← List.map_id (chunkSeq s)]
    refine List.map_congr_left ?_
    intro c hc
    have hsub := (chunkSeq_mem s c hc).2
    rw [pyRstrip_eq_self c (fun x hx => h x (hsub x hx))]
    simp
  rw [hmap, chunkSeq_flatten]
  refine List.filter_eq_self.mpr ?_
  intro a ha
  have hpa := h a ha
  simp only [pyIsSpace, Bool.or_eq_false_iff] at hpa
  simp [hpa.1.1.1.1.1, hpa.1.1.2]

theorem fastaTitle_wf (r : SeqRecord) (hid : r.id ≠ [])
    (hfw : firstWord r.description = r.id) : fastaTitle r = r.description := by
  have hdne : r.description ≠ [] := by
    intro h0
    rw [h0] at hfw
    simp [firstWord] at hfw
    exact hid hfw
  have h1 : r.description.isEmpty = false := by
    cases hb : r.description.isEmpty
    · rfl
    · exact absurd (List.isEmpty_iff.mp hb) hdne
  have h2 : (firstWord r.description == r.id) = true := beq_iff_eq.mpr hfw
  simp [fastaTitle, h1, h2]

theorem takeWhile_append_of_all (p : PyStr → Bool) :
    ∀ (xs ys : List PyStr), (∀ x ∈ xs, p x = true) →
      (ys = [] ∨ ∃ l ls, ys = l :: ls ∧ p l = false) →
      (xs ++ ys).takeWhile p = xs ∧ (xs ++ ys).dropWhile p = ys := by
  intro xs
  induction xs with
  | nil =>
    intro ys _ hy
    simp only [List.nil_append]
    rcases hy with h0 | ⟨l, ls, rfl, hl⟩
    · subst h0
      exact ⟨rfl, rfl⟩
    · exact ⟨by simp [List.takeWhile_cons, hl], by simp [List.dropWhile_cons, hl]⟩
  | cons x xs' ih =>
    intro ys hx hy
    have hpx : p x = true := hx x (by simp)
    have hrec := ih ys (fun a ha => hx a (List.mem_cons_of_mem _ ha)) hy
    simp only [List.cons_append, List.takeWhile_cons, List.dropWhile_cons, hpx]
    simp [hrec.1, hrec.2]

theorem writeFasta_cons (r : SeqRecord) (rs : List SeqRecord) :
    writeFasta (r :: rs) = writeRecord r ++ writeFasta rs := by
  simp [writeFasta]

theorem writeFasta_startsWithHeader (rs : List SeqRecord) :
    startsWithHeader (writeFasta rs) := by
  cases rs with
  | nil => exact Or.inl rfl
  | cons r rs' =>
    right
    exact ⟨'>' :: fastaTitle r, chunkSeq r.seq ++ writeFasta rs',
      by simp [writeFasta, writeRecord], rfl⟩

theorem parseFasta_writeRecord (r : SeqRecord) (rest : List PyStr)
    (hwf : wfRecord r) (hrest : startsWithHeader rest) :
    parseFasta (writeRecord r ++ rest)
      = { r with name := r.id } :: parseFasta rest := by
  obtain ⟨hid, hfw, hrs, hdnl, hseq⟩ := hwf
  have htitle : fastaTitle r = r.description := fastaTitle_wf r hid hfw
  have hchunkp : ∀ c ∈ chunkSeq r.seq, (!isHeaderLine c) = true := by
    intro c hc
    obtain ⟨hcne, hcsub⟩ := chunkSeq_mem r.seq c hc
    cases c with
    | nil => exact absurd rfl hcne
    | cons a as =>
      have ha := hseq a (hcsub a (by simp))
      have hne : (a == '>') = false := beq_eq_false_iff_ne.mpr ha.2.1
      simp [isHeaderLine, hne]
  have hys : (rest = [] ∨ ∃ l ls, rest = l :: ls ∧ (!isHeaderLine l) = false) := by
    rcases hrest with h0 | ⟨l, ls, hrl, hl⟩
    · exact Or.inl h0
    · exact Or.inr ⟨l, ls, hrl, by simp [hl]⟩
  have hsplit := takeWhile_append_of_all (fun x => !isHeaderLine x)
    (chunkSeq r.seq) rest hchunkp hys
  have hcons : writeRecord r ++ rest
      = ('>' :: fastaTitle r) :: (chunkSeq r.seq ++ rest) := by
    simp [writeRecord]
  rw [hcons]
  unfold parseFasta
  simp only [List.length_cons, parseFastaAux]
  rw [if_pos (show isHeaderLine ('>' :: fastaTitle r) = true from rfl)]
  have hdrop1 : ('>' :: fastaTitle r).drop 1 = fastaTitle r := rfl
  rw [hdrop1, htitle, hrs, hfw, hsplit.1, hsplit.2]
  rw [seqJoin_chunkSeq r.seq (fun c hc => (hseq c hc).1)]
  congr 1
  exact parseFastaAux_fuel (chunkSeq r.seq ++ rest).length rest.length rest
    (by simp only [List.length_append]; omega) (Nat.le_refl _)

theorem parseFasta_writeFasta :
    ∀ (rs : List SeqRecord), (∀ r ∈ rs, wfRecord r) →
      parseFasta (writeFasta rs) = rs.map (fun r => { r with name := r.id }) := by
  intro rs
  induction rs with
  | nil =>
    intro _
    rfl
  | cons r rs' ih =>
    intro h
    rw [writeFasta_cons,
      parseFasta_writeRecord r _ (h r (by simp)) (writeFasta_startsWithHeader rs'),
      ih (fun x hx => h x (List.mem_cons_of_mem _ hx))]
    rfl

theorem applyAll_identity (lk : LookupMap) (recs : List SeqRecord) :
    applyAllRecords identityFragSem lk recs
      = recs.map (fun r => { r with name := ([] : PyStr) }) := by
  induction recs with
  | nil => rfl
  | cons r rs ih =>
    have happ : applyModifier identityFragSem lk r.id r.description
        = .ok (r.id, r.description) := rfl
    simp only [applyAllRecords, List.filterMap_cons, happ, List.map_cons]
    simp only [applyAllRecords] at ih
    rw [ih]

/-- C6: a well-formed sequence file transformed by the batch apply with
the identity fragment and reparsed yields records whose identifiers and
descriptions equal those parsed from the original file, with the sequence
payloads bit-identical. -/
theorem C6_identity_roundtrip (fileLines : List PyStr)
    (hwf : ∀ r ∈ parseFasta fileLines, wfRecord r) :
    (parseFasta (writeFasta (applyAllRecords identityFragSem []
        (parseFasta fileLines)))).map SeqRecord.id
      = (parseFasta fileLines).map SeqRecord.id ∧
    (parseFasta (writeFasta (applyAllRecords identityFragSem []
        (parseFasta fileLines)))).map SeqRecord.description
      = (parseFasta fileLines).map SeqRecord.description ∧
    (parseFasta (writeFasta (applyAllRecords identityFragSem []
        (parseFasta fileLines)))).map SeqRecord.seq
      = (parseFasta fileLines).map SeqRecord.seq := by
  rw [applyAll_identity]
  have hwf2 : ∀ r ∈ (parseFasta fileLines).map
      (fun r => { r with name := ([] : PyStr) }), wfRecord r := by
    intro r hr
    obtain ⟨r0, hr0, rfl⟩ := List.mem_map.mp hr
    exact hwf r0 hr0
  rw [parseFasta_writeFasta _ hwf2]
  refine ⟨?_, ?_, ?_⟩ <;>
    (rw [List.map_map, List.map_map]; exact List.map_congr_left (fun r _ => rfl))

/-- Witness for C6 at a concrete two-record file. -/
theorem C6_witness :
    (parseFasta (writeFasta (applyAllRecords identityFragSem []
        (parseFasta [">seq1 first sample".toList, "ACGTACGT".toList,
          ">seq2 second sample".toList, "TTGG".toList])))).map SeqRecord.id
      = (parseFasta [">seq1 first sample".toList, "ACGTACGT".toList,
          ">seq2 second sample".toList, "TTGG".toList]).map SeqRecord.id :=
  (C6_identity_roundtrip [">seq1 first sample".toList, "ACGTACGT".toList,
    ">seq2 second sample".toList, "TTGG".toList] (by decide)).1

